import Mathlib

/-!
Shallow embedding of the dip-buyer stock dashboard's data pipeline:
the CSV ingestor (`CSVUpload.tsx`), the heuristic recommendation scorer
(`Dashboard.tsx`), the language-model scoring edge function
(`generate-ai-recommendations`), and the fixed-catalog importer
(`import-nse-data`).

Modelling conventions:
* JavaScript strings are `List Char`; JavaScript numbers are `ℚ`
  (the programs only perform exact decimal arithmetic on the values of
  interest, so rational arithmetic models it faithfully);
  timestamps are `ℤ` milliseconds.
* `Math.random()` draws are explicit parameters ranging over `[0,1)`.
* The persistent store is explicit state: a table is a list of rows, and
  each operation is a function from stores to stores.
* String templating of the human-readable `reasoning` text is abstracted
  into an inductive `Reasoning` that records the template and its numeric
  or symbol arguments.
-/

namespace DipBuyer

/-! ### Characters and small string utilities -/

def lfChar : Char := Char.ofNat 10
def crChar : Char := Char.ofNat 13
def tabChar : Char := Char.ofNat 9
def quoteChar : Char := Char.ofNat 34
def aposChar : Char := Char.ofNat 39
def commaChar : Char := ','
def dollarChar : Char := '$'
def pctChar : Char := '%'
def underscoreChar : Char := '_'
def dashChar : Char := '-'
def dotChar : Char := '.'
def plusChar : Char := '+'
def spaceChar : Char := ' '

/-- The whitespace class trimmed by JavaScript `String.prototype.trim`
(restricted to the ASCII whitespace that can occur in this pipeline). -/
def isJsSpace (c : Char) : Bool :=
  c == spaceChar || c == tabChar || c == lfChar || c == crChar ||
    c == Char.ofNat 11 || c == Char.ofNat 12

/-- JavaScript `s.trim()`. -/
def trim (s : List Char) : List Char :=
  ((s.dropWhile isJsSpace).reverse.dropWhile isJsSpace).reverse

/-- Convenience: view a Lean string literal as a JavaScript string. -/
def str (s : String) : List Char := s.toList

/-! ### Quote-aware CSV field splitting

`parseCSVLine` from `CSVUpload.tsx`: walk the line; a double quote toggles
`inQuotes`; a comma outside quotes ends the field (pushed trimmed); every
other character is appended to the current field.  The accumulator
`current` is kept reversed. -/

def csvLineAux : List Char → Bool → List Char → List (List Char)
  | current, _, [] => [trim current.reverse]
  | current, inQ, c :: rest =>
    if c == quoteChar then csvLineAux current (!inQ) rest
    else if c == commaChar && !inQ then
      trim current.reverse :: csvLineAux [] false rest
    else csvLineAux (c :: current) inQ rest

def parseCSVLine (line : List Char) : List (List Char) :=
  csvLineAux [] false line

/-! ### Numeric parsing (JavaScript `parseFloat` / `parseInt`)

Modelled for decimal literals with optional sign and fraction, parsing the
longest valid prefix and failing (`none`, i.e. `NaN`) when no digit is
consumed.  Exponent suffixes and hex prefixes never occur in this
pipeline's data and are not modelled. -/

def digitsToNat (ds : List Char) : ℕ :=
  ds.foldl (fun a c => 10 * a + (c.toNat - 48)) 0

def jsParseFloat (s0 : List Char) : Option ℚ :=
  let s1 := s0.dropWhile isJsSpace
  let sgn : ℤ × List Char :=
    match s1 with
    | c :: r =>
      if c == dashChar then (-1, r) else if c == plusChar then (1, r) else (1, s1)
    | [] => (1, s1)
  let intDs := sgn.2.takeWhile Char.isDigit
  let s3 := sgn.2.dropWhile Char.isDigit
  let fracDs : List Char :=
    match s3 with
    | c :: r => if c == dotChar then r.takeWhile Char.isDigit else []
    | [] => []
  if intDs.isEmpty && fracDs.isEmpty then none
  else some (Rat.divInt (sgn.1 * (digitsToNat (intDs ++ fracDs) : ℤ))
    ((10 : ℤ) ^ fracDs.length))

def jsParseInt (s0 : List Char) : Option ℤ :=
  let s1 := s0.dropWhile isJsSpace
  let sgn : ℤ × List Char :=
    match s1 with
    | c :: r =>
      if c == dashChar then (-1, r) else if c == plusChar then (1, r) else (1, s1)
    | [] => (1, s1)
  let ds := sgn.2.takeWhile Char.isDigit
  if ds.isEmpty then none else some (sgn.1 * digitsToNat ds)

/-! ### CSV ingestor (`parseCSV` in `CSVUpload.tsx`) -/

/-- `value.replace(/['"]/g, '')`. -/
def stripQuotes (s : List Char) : List Char :=
  s.filter (fun c => !(c == quoteChar || c == aposChar))

/-- `value.replace(/[,$]/g, '')` — used for price, volume and market cap. -/
def stripCommaDollar (s : List Char) : List Char :=
  s.filter (fun c => !(c == commaChar || c == dollarChar))

/-- `value.replace(/[%,$]/g, '')` — used for the 24h change only. -/
def stripPctCommaDollar (s : List Char) : List Char :=
  s.filter (fun c => !(c == pctChar || c == commaChar || c == dollarChar))

def jsToLower (s : List Char) : List Char := s.map Char.toLower

def jsToUpper (s : List Char) : List Char := s.map Char.toUpper

/-- `header.toLowerCase().replace(/[\s_-]/g, '')`. -/
def normalizeHeader (h : List Char) : List Char :=
  (jsToLower h).filter (fun c => !(isJsSpace c || c == underscoreChar || c == dashChar))

def begMatch : List Char → List Char → Bool
  | [], _ => true
  | _ :: _, [] => false
  | p :: ps, c :: cs => p == c && begMatch ps cs

/-- JavaScript `String.prototype.includes`. -/
def containsSeg (pat : List Char) : List Char → Bool
  | [] => pat.isEmpty
  | c :: cs => begMatch pat (c :: cs) || containsSeg pat cs

structure CSVRow where
  symbol : Option (List Char) := none
  name : Option (List Char) := none
  sector : Option (List Char) := none
  current_price : Option ℚ := none
  price_change_24h : Option ℚ := none
  volume : Option ℤ := none
  market_cap : Option ℤ := none
deriving DecidableEq

/-- One arm of the `switch (true)` header dispatch in `parseCSV`:
assign the (non-empty) cleaned value `v` to the field selected by the
fuzzy header match; a numeric value that fails to parse leaves the row
unchanged. -/
def applyHeader (row : CSVRow) (header v : List Char) : CSVRow :=
  let nh := normalizeHeader header
  if containsSeg (str "symbol") nh || nh == str "ticker" then
    { row with symbol := some (jsToUpper v) }
  else if containsSeg (str "name") nh || containsSeg (str "company") nh then
    { row with name := some v }
  else if containsSeg (str "sector") nh || containsSeg (str "industry") nh then
    { row with sector := some v }
  else if (containsSeg (str "price") nh && !containsSeg (str "change") nh) ||
      nh == str "currentprice" || nh == str "close" then
    match jsParseFloat (stripCommaDollar v) with
    | some q => { row with current_price := some q }
    | none => row
  else if containsSeg (str "change") nh || containsSeg (str "pct") nh then
    match jsParseFloat (stripPctCommaDollar v) with
    | some q => { row with price_change_24h := some q }
    | none => row
  else if containsSeg (str "volume") nh then
    match jsParseInt (stripCommaDollar v) with
    | some n => { row with volume := some n }
    | none => row
  else if (containsSeg (str "market") nh && containsSeg (str "cap") nh) ||
      nh == str "marketcap" then
    match jsParseInt (stripCommaDollar v) with
    | some n => { row with market_cap := some n }
    | none => row
  else row

/-- `headers.forEach((header, index) => ...)`: skip a missing or
(after quote-stripping and trimming) empty value, else dispatch. -/
def buildRowStep (values : List (List Char)) (row : CSVRow) (p : ℕ × List Char) : CSVRow :=
  match values[p.1]? with
  | none => row
  | some raw =>
    let v := trim (stripQuotes raw)
    if v.isEmpty then row else applyHeader row p.2 v

def buildRow (headers values : List (List Char)) : CSVRow :=
  (headers.enum).foldl (buildRowStep values) {}

/-- `text.replace(/\r\n/g, '\n').replace(/\r/g, '\n')`. -/
def normalizeNewlines : List Char → List Char
  | [] => []
  | [c] => [if c == crChar then lfChar else c]
  | c1 :: c2 :: rest =>
    if c1 == crChar then
      if c2 == lfChar then lfChar :: normalizeNewlines rest
      else lfChar :: normalizeNewlines (c2 :: rest)
    else c1 :: normalizeNewlines (c2 :: rest)

/-- `.split('\n').filter(line => line.trim())`. -/
def linesOf (text : List Char) : List (List Char) :=
  ((normalizeNewlines text).splitOn lfChar).filter (fun l => !(trim l).isEmpty)

/-- Header row, lower-cased and quote-stripped. -/
def headersOf (text : List Char) : List (List Char) :=
  match linesOf text with
  | [] => []
  | h :: _ => (parseCSVLine h).map (fun f => stripQuotes (jsToLower f))

def dataRowsOf (text : List Char) : List (List Char) :=
  match linesOf text with
  | [] => []
  | _ :: ds => ds

/-- JavaScript truthiness of an optional string (`undefined` and `''` are
falsy). -/
def truthyStr : Option (List Char) → Bool
  | some s => !s.isEmpty
  | none => false

/-- Processing of one data line: skip a line with no values or only
blank values; build the row; keep it only when both symbol and name are
truthy. -/
def rowOfLine (headers : List (List Char)) (line : List Char) : Option CSVRow :=
  let values := parseCSVLine line
  if values.isEmpty || values.all (fun v => (trim v).isEmpty) then none
  else
    let row := buildRow headers values
    if truthyStr row.symbol && truthyStr row.name then some row else none

def parseCSV (text : List Char) : List CSVRow :=
  (dataRowsOf text).filterMap (rowOfLine (headersOf text))

/-! ### Data model

`StockRow` is a stored row of the `stocks` table (`id` is the
database-assigned uuid).  `RecRow` is a stored row of the
`recommendations` table; its `created_at` is the database default
`now()`, identified in this embedding with the `now` at which the
inserting operation runs. -/

inductive RecType
  | buy
  | sell
  | hold
  | watch
deriving DecidableEq

/-- Human-readable `reasoning` text, abstracted into the template used
and its numeric or symbol arguments (the string interpolation itself
carries no logic). -/
inductive Reasoning
  | momentumTemplate (pc : ℚ)
  | dipTemplate (pc : ℚ)
  | stableTemplate
  | fallbackTemplate (pc : ℚ)
  | nseTemplate (symbol : List Char)
  | rawText (t : List Char)
deriving DecidableEq

structure StockRow where
  id : List Char
  symbol : List Char
  name : List Char
  sector : List Char
  current_price : ℚ
  price_change_24h : ℚ
  volume : ℤ
  market_cap : ℤ
  last_updated : ℤ
deriving DecidableEq

structure RecRow where
  id : List Char
  stock_id : List Char
  rec_type : RecType
  confidence_score : ℚ
  target_price : ℚ
  reasoning : Reasoning
  created_at : ℤ
  expires_at : ℤ
deriving DecidableEq

/-- `'00000000-0000-0000-0000-000000000000'`. -/
def zeroUuid : List Char := str "00000000-0000-0000-0000-000000000000"

/-- The `.delete().neq('id', zeroUuid)` bulk-clear used by every replace
step: rows whose id differs from the zero uuid are deleted, so exactly
the rows whose id *is* the zero uuid remain. -/
def deleteNeqZero (idOf : α → List Char) (rows : List α) : List α :=
  rows.filter (fun r => idOf r == zeroUuid)

/-- `7 * 24 * 60 * 60 * 1000` milliseconds. -/
def sevenDaysMs : ℤ := 7 * 24 * 60 * 60 * 1000

/-- JavaScript `Math.round(x * 100) / 100` (round half towards `+∞`). -/
def jsRound2 (q : ℚ) : ℚ := (⌊q * 100 + 1 / 2⌋ : ℚ) / 100

/-! ### Heuristic scorer (`generateAIRecommendations` in `Dashboard.tsx`)

The three `Math.random()` calls of one loop iteration are the explicit
draws `tD` (type), `cD` (confidence) and `pD` (target multiplier), each
ranging over `[0,1)`. -/

def mkDashboardRec (rid : List Char) (s : StockRow) (tD cD pD : ℚ) (now : ℤ) : RecRow :=
  let pc := s.price_change_24h
  if pc > 2 then
    { id := rid, stock_id := s.id
      rec_type := if tD > 3 / 10 then .buy else .watch
      confidence_score := min (3 / 4 + cD * (1 / 5)) 1
      target_price := jsRound2 (s.current_price * (21 / 20 + pD * (3 / 20)))
      reasoning := .momentumTemplate pc
      created_at := now, expires_at := now + sevenDaysMs }
  else if pc < -2 then
    { id := rid, stock_id := s.id
      rec_type := if tD > 1 / 2 then .buy else .watch
      confidence_score := min (13 / 20 + cD * (1 / 4)) 1
      target_price := jsRound2 (s.current_price * (11 / 10 + pD * (1 / 5)))
      reasoning := .dipTemplate pc
      created_at := now, expires_at := now + sevenDaysMs }
  else
    { id := rid, stock_id := s.id
      rec_type := if tD > 3 / 5 then .hold else .watch
      confidence_score := min (3 / 5 + cD * (3 / 10)) 1
      target_price := jsRound2 (s.current_price * (51 / 50 + pD * (2 / 25)))
      reasoning := .stableTemplate
      created_at := now, expires_at := now + sevenDaysMs }

/-- The dashboard generation run: take the first 10 stocks; an empty
batch reports failure before touching the store; otherwise clear the
recommendation store and insert one heuristic row per stock. -/
def dashboardGenerate (stocks : List StockRow) (recStore : List RecRow)
    (recIds : ℕ → List Char) (draws : ℕ → ℚ × ℚ × ℚ) (now : ℤ) :
    List RecRow × Bool :=
  let toRec := stocks.take 10
  if toRec.isEmpty then (recStore, false)
  else
    (deleteNeqZero RecRow.id recStore ++
      toRec.enum.map (fun p =>
        mkDashboardRec (recIds p.1) p.2 (draws p.1).1 (draws p.1).2.1
          (draws p.1).2.2 now), true)

/-! ### Language-model scorer (edge function `generate-ai-recommendations`)

The JSON envelope of the upstream response and `JSON.parse` itself are
external runtime facilities; the pipeline is parameterised over the
parse oracle `parse` and the random batch selection `select` (the
shuffle-then-slice).  Everything else — the regex extraction of the
bracketed span, the fallback, the symbol match-back, the clamping and
the response statuses — is modelled from the source. -/

structure LMRecRaw where
  symbol : List Char
  rec_type : RecType
  confidence_score : ℚ
  target_price : ℚ
  reasoning : Reasoning
deriving DecidableEq

def lBracketChar : Char := '['
def rBracketChar : Char := ']'

def firstIdxFrom (c : Char) : List Char → Option ℕ
  | [] => none
  | x :: xs => if x == c then some 0 else (firstIdxFrom c xs).map (· + 1)

/-- The greedy regex `/\[[\s\S]*\]/`: the span from the first `[` to the
last `]`, when the first `[` precedes the last `]`; no match otherwise. -/
def extractJsonSpan (s : List Char) : Option (List Char) :=
  match firstIdxFrom lBracketChar s,
      (firstIdxFrom rBracketChar s.reverse).map (fun i => s.length - 1 - i) with
  | some i, some j => if i < j then some ((s.drop i).take (j - i + 1)) else none
  | _, _ => none

/-- JavaScript truthiness of the reasoning value. -/
def truthyReasoning : Reasoning → Bool
  | .rawText t => !t.isEmpty
  | _ => true

/-- One inserted row: `confidence_score` clamped into `[0,1]` by
`Math.min(Math.max(·, 0), 1)`, `target_price` clamped to `≥ 0` by
`Math.max(·, 0)`. -/
def mkLMRow (rid : List Char) (s : StockRow) (g : LMRecRaw) (now : ℤ) : RecRow :=
  { id := rid, stock_id := s.id, rec_type := g.rec_type
    confidence_score := min (max g.confidence_score 0) 1
    target_price := max g.target_price 0
    reasoning := if truthyReasoning g.reasoning then g.reasoning
      else .rawText (str "AI-generated recommendation")
    created_at := now, expires_at := now + sevenDaysMs }

/-- The parse-failure fallback recommendation for one stock. -/
def fallbackRec (s : StockRow) : LMRecRaw :=
  { symbol := s.symbol
    rec_type := if s.price_change_24h > 0 then .buy else .watch
    confidence_score := 7 / 10
    target_price := s.current_price * (11 / 10)
    reasoning := .fallbackTemplate s.price_change_24h }

/-- `stocks.find(s => s.symbol === geminiRec.symbol)` for each returned
entry: entries whose symbol matches no batch member are dropped. -/
def matchBack (recIds : ℕ → List Char) (stocks : List StockRow)
    (recs : List LMRecRaw) (now : ℤ) : List RecRow :=
  ((recs.filterMap (fun g =>
      (stocks.find? (fun s => s.symbol == g.symbol)).map (fun s => (s, g)))).enum).map
    (fun p => mkLMRow (recIds p.1) p.2.1 p.2.2 now)

inductive ErrKind
  | noErr
  | emptyBatch
  | rateLimit
  | payment
  | generic
deriving DecidableEq

structure ServeOut where
  status : ℕ
  success : Bool
  errKind : ErrKind
  recStore : List RecRow
deriving DecidableEq

/-- Outcome of the upstream text-completion call. -/
inductive Upstream
  | httpError (status : ℕ) (body : List Char)
  | ok (text : List Char)

/-- The serve handler: empty batch is rejected before any deletion;
otherwise the recommendation store is cleared, then a failed upstream
call surfaces 429 and 402 distinctly (anything else becomes a caught
exception and status 500), and on success the located-and-parsed JSON —
or the heuristic fallback over the same batch when it cannot be located
or parsed — is matched back by symbol and inserted. -/
def lmServe (parse : List Char → Option (List LMRecRaw))
    (select : List StockRow → List StockRow)
    (allStocks : List StockRow) (recStore : List RecRow)
    (recIds : ℕ → List Char) (up : Upstream) (now : ℤ) : ServeOut :=
  if allStocks.isEmpty then ⟨400, false, .emptyBatch, recStore⟩
  else
    let stocks := (select allStocks).take 10
    let cleared := deleteNeqZero RecRow.id recStore
    match up with
    | .httpError st _ =>
      if st = 429 then ⟨429, false, .rateLimit, cleared⟩
      else if st = 402 then ⟨402, false, .payment, cleared⟩
      else ⟨500, false, .generic, cleared⟩
    | .ok text =>
      let recs := match (extractJsonSpan text).bind parse with
        | some l => l
        | none => stocks.map fallbackRec
      ⟨200, true, .noErr, cleared ++ matchBack recIds stocks recs now⟩

/-! ### Fixed-catalog importer (edge function `import-nse-data`) -/

structure NSEStock where
  symbol : List Char
  name : List Char
  sector : Option (List Char)
  current_price : Option ℚ
  price_change_24h : Option ℚ
  volume : Option ℤ
  market_cap : Option ℤ
deriving DecidableEq

def sampleNSEData : List NSEStock :=
  [ ⟨str "RELIANCE", str "Reliance Industries Limited", some (str "Oil & Gas"),
      some (mkRat 245075 100), some (mkRat 125 100), some 5000000, some 1650000000000⟩,
    ⟨str "TCS", str "Tata Consultancy Services Limited", some (str "Information Technology"),
      some (mkRat 365050 100), some (mkRat (-85) 100), some 2500000, some 1320000000000⟩,
    ⟨str "INFY", str "Infosys Limited", some (str "Information Technology"),
      some (mkRat 145530 100), some (mkRat 210 100), some 3200000, some 610000000000⟩,
    ⟨str "HDFCBANK", str "HDFC Bank Limited", some (str "Banking"),
      some (mkRat 162590 100), some (mkRat 75 100), some 4100000, some 1240000000000⟩,
    ⟨str "ICICIBANK", str "ICICI Bank Limited", some (str "Banking"),
      some (mkRat 98545 100), some (mkRat (-120) 100), some 6500000, some 690000000000⟩,
    ⟨str "HINDUNILVR", str "Hindustan Unilever Limited", some (str "FMCG"),
      some (mkRat 268520 100), some (mkRat 95 100), some 1800000, some 630000000000⟩,
    ⟨str "BHARTIARTL", str "Bharti Airtel Limited", some (str "Telecommunications"),
      some (mkRat 112575 100), some (mkRat 185 100), some 8200000, some 620000000000⟩,
    ⟨str "ITC", str "ITC Limited", some (str "FMCG"),
      some (mkRat 48560 100), some (mkRat (-45) 100), some 12000000, some 600000000000⟩,
    ⟨str "KOTAKBANK", str "Kotak Mahindra Bank Limited", some (str "Banking"),
      some (mkRat 175585 100), some (mkRat 230 100), some 2100000, some 350000000000⟩,
    ⟨str "LT", str "Larsen & Toubro Limited", some (str "Construction"),
      some (mkRat 352540 100), some (mkRat 165 100), some 1500000, some 495000000000⟩,
    ⟨str "WIPRO", str "Wipro Limited", some (str "Information Technology"),
      some (mkRat 42570 100), some (mkRat (-115) 100), some 4800000, some 230000000000⟩,
    ⟨str "MARUTI", str "Maruti Suzuki India Limited", some (str "Automobile"),
      some (mkRat 1085025 100), some (mkRat 85 100), some 580000, some 328000000000⟩,
    ⟨str "HCLTECH", str "HCL Technologies Limited", some (str "Information Technology"),
      some (mkRat 128595 100), some (mkRat 145 100), some 2800000, some 348000000000⟩,
    ⟨str "ASIANPAINT", str "Asian Paints Limited", some (str "Paints"),
      some (mkRat 295060 100), some (mkRat (-65) 100), some 950000, some 283000000000⟩,
    ⟨str "ADANIPORTS", str "Adani Ports and Special Economic Zone Limited", some (str "Infrastructure"),
      some (mkRat 74530 100), some (mkRat 325 100), some 7200000, some 161000000000⟩ ]

/-- JavaScript `s || d` for an optional string. -/
def truthyOrStr (o : Option (List Char)) (d : List Char) : List Char :=
  match o with
  | some s => if s.isEmpty then d else s
  | none => d

/-- JavaScript `x || 0` for an optional number (0 is falsy, so a present
0 and a missing value both yield 0). -/
def orZeroQ (o : Option ℚ) : ℚ := o.getD 0

def orZeroZ (o : Option ℤ) : ℤ := o.getD 0

def stockOfNSE (sid : List Char) (n : NSEStock) (now : ℤ) : StockRow :=
  { id := sid, symbol := n.symbol, name := n.name
    sector := truthyOrStr n.sector (str "Unknown")
    current_price := orZeroQ n.current_price
    price_change_24h := orZeroQ n.price_change_24h
    volume := orZeroZ n.volume, market_cap := orZeroZ n.market_cap
    last_updated := now }

def big4 : List (List Char) :=
  [str "RELIANCE", str "TCS", str "INFY", str "HDFCBANK"]

/-- One recommendation created by the importer: coin-flip type, uniform
confidence in `[0.7, 1)`, uniform target price in `[2000, 2500)` —
independent of the equity's price data. -/
def mkImportRec (rid : List Char) (s : StockRow) (d1 d2 d3 : ℚ) (now : ℤ) : RecRow :=
  { id := rid, stock_id := s.id
    rec_type := if d1 > 1 / 2 then .buy else .watch
    confidence_score := d2 * (3 / 10) + 7 / 10
    target_price := d3 * 500 + 2000
    reasoning := .nseTemplate s.symbol
    created_at := now, expires_at := now + sevenDaysMs }

/-- The import handler: replace the stocks table with the fixed catalog,
query the rows whose symbol is one of the four named ones, and if any
exist replace the recommendations table with one `mkImportRec` row per
queried stock. -/
def importServe (stockStore : List StockRow) (recStore : List RecRow)
    (stockIds recIds : ℕ → List Char) (draws : ℕ → ℚ × ℚ × ℚ) (now : ℤ) :
    List StockRow × List RecRow :=
  let stocksFinal := deleteNeqZero StockRow.id stockStore ++
    sampleNSEData.enum.map (fun p => stockOfNSE (stockIds p.1) p.2 now)
  let stocksData := stocksFinal.filter (fun s => big4.contains s.symbol)
  if stocksData.isEmpty then (stocksFinal, recStore)
  else
    (stocksFinal,
      deleteNeqZero RecRow.id recStore ++
        stocksData.enum.map (fun p =>
          mkImportRec (recIds p.1) p.2 (draws p.1).1 (draws p.1).2.1
            (draws p.1).2.2 now))

/-! ### CSV upload write path and dashboard read path -/

def stockOfCSVRow (sid : List Char) (r : CSVRow) (now : ℤ) : StockRow :=
  { id := sid, symbol := r.symbol.getD [], name := r.name.getD []
    sector := truthyOrStr r.sector (str "Unknown")
    current_price := orZeroQ r.current_price
    price_change_24h := orZeroQ r.price_change_24h
    volume := orZeroZ r.volume, market_cap := orZeroZ r.market_cap
    last_updated := now }

/-- `handleUpload`: zero parsed rows reports a user-visible parsing
failure and returns before any store mutation; otherwise the stocks
table is cleared and the parsed rows inserted. -/
def handleUpload (text : List Char) (stockStore : List StockRow)
    (stockIds : ℕ → List Char) (now : ℤ) : List StockRow × Bool :=
  let csvData := parseCSV text
  if csvData.isEmpty then (stockStore, false)
  else
    (deleteNeqZero StockRow.id stockStore ++
      csvData.enum.map (fun p => stockOfCSVRow (stockIds p.1) p.2 now), true)

/-- Stable insertion sort by descending confidence (the database's
`order('confidence_score', { ascending: false })`; the sort algorithm
itself is the store's concern, only the ordering key is the program's). -/
def insertByConf (r : RecRow) : List RecRow → List RecRow
  | [] => [r]
  | x :: xs =>
    if x.confidence_score ≤ r.confidence_score then r :: x :: xs
    else x :: insertByConf r xs

def sortByConfDesc : List RecRow → List RecRow
  | [] => []
  | x :: xs => insertByConf x (sortByConfDesc xs)

/-- The dashboard read path for recommendations: an inner join against
the stocks table plus `.gte('expires_at', now)`, ordered by confidence
descending. -/
def fetchRecs (now : ℤ) (recs : List RecRow) (stocks : List StockRow) :
    List RecRow :=
  sortByConfDesc (recs.filter (fun r => decide (now ≤ r.expires_at) &&
    stocks.any (fun s => s.id == r.stock_id)))

/-! ### Concrete fixtures used by witnesses and counterexamples -/

def stockW : StockRow :=
  ⟨str "sid-1", str "AAA", str "Alpha Ltd", str "Unknown", 10, 0, 0, 0, 0⟩

def recW : RecRow :=
  ⟨str "rid-1", str "sid-1", .hold, 0, 0, .stableTemplate, 0, 604800000⟩

def negStock : StockRow :=
  ⟨str "sid-neg", str "NEG", str "Negative Ltd", str "Unknown", -100, 0, 0, 0, 0⟩

def upStock : StockRow :=
  ⟨str "sid-up", str "UP", str "Up Ltd", str "Unknown", 1, 3, 0, 0, 0⟩

def relianceRow : StockRow :=
  ⟨str "sid-rel", str "RELIANCE", str "Reliance Industries Limited",
    str "Oil & Gas", mkRat 245075 100, mkRat 125 100, 5000000, 1650000000000, 0⟩

/-- A raw language-model entry whose confidence and target are out of
range. -/
def lmRawW : LMRecRaw := ⟨str "AAA", .buy, 2, -5, .rawText (str "why")⟩

/-- A raw language-model entry whose symbol matches no batch member. -/
def lmRawUnmatched : LMRecRaw := ⟨str "ZZZ", .buy, 0, 0, .rawText (str "t")⟩

def constIds : ℕ → List Char := fun _ => str "new-id"

def constDraws : ℕ → ℚ × ℚ × ℚ := fun _ => (0, 0, 0)

def noParse : List Char → Option (List LMRecRaw) := fun _ => none

def idSelect : List StockRow → List StockRow := fun l => l

def csvTextW : List Char := str "symbol,name" ++ lfChar :: str "abc,Abc Ltd"

def tickerText : List Char := str "Ticker,Name" ++ lfChar :: str "tcs,Tata"

/-! ## Theorems -/

lemma csvLineAux_quoted (f : List Char) (hf : quoteChar ∉ f) :
    ∀ cur rest, csvLineAux cur true (f ++ quoteChar :: commaChar :: rest) =
      trim (cur.reverse ++ f) :: parseCSVLine rest := by
  induction f with
  | nil =>
    intro cur rest
    have hcq : (commaChar == quoteChar) = false := by decide
    simp [csvLineAux, parseCSVLine, hcq]
  | cons c f ih =>
    intro cur rest
    have hc : c ≠ quoteChar := by
      intro h; exact hf (by simp [h])
    have hf' : quoteChar ∉ f := fun h => hf (by simp [h])
    have step : csvLineAux cur true (c :: (f ++ quoteChar :: commaChar :: rest)) =
        csvLineAux (c :: cur) true (f ++ quoteChar :: commaChar :: rest) := by
      simp [csvLineAux, hc, Ne.symm hc]
    rw [List.cons_append, step, ih hf' (c :: cur) rest]
    simp

/-- **C7.** CSV field splitting is quote-aware: a double quote toggles an
inside-field mode where the comma is literal text, so a quoted field with
an embedded comma stays one field; a doubled quote is just two toggles
(no escaped-quote support), so `"a""b"` parses to the single field `ab`. -/
theorem csv_quote_toggles_comma_literal :
    (∀ f rest, quoteChar ∉ f →
      parseCSVLine (quoteChar :: (f ++ quoteChar :: commaChar :: rest)) =
        trim f :: parseCSVLine rest)
    ∧ parseCSVLine (str "\"Reliance, Industries\",RELIANCE") =
        [str "Reliance, Industries", str "RELIANCE"]
    ∧ parseCSVLine (str "\"a\"\"b\"") = [str "ab"] := by
  refine ⟨?_, by decide, by decide⟩
  intro f rest hf
  have h0 : parseCSVLine (quoteChar :: (f ++ quoteChar :: commaChar :: rest)) =
      csvLineAux [] true (f ++ quoteChar :: commaChar :: rest) := by
    simp [parseCSVLine, csvLineAux]
  rw [h0, csvLineAux_quoted f hf [] rest]
  simp

/-- Witness for C7 at a concrete quoted field containing a comma. -/
theorem csv_quote_toggles_comma_literal_witness :
    parseCSVLine (quoteChar :: (str "x, y" ++ quoteChar :: commaChar :: str "z")) =
      trim (str "x, y") :: parseCSVLine (str "z") :=
  csv_quote_toggles_comma_literal.1 (str "x, y") (str "z") (by decide)

/-- The parser reproduces the spec's round-trip example (not itself one
of the frozen claims, but evidence that the embedding is the source's
parser). -/
theorem csv_roundtrip_example :
    parseCSV (str "symbol,name,sector,current_price,price_change_24h,volume,market_cap"
        ++ lfChar :: str "AAPL,Apple Inc.,Technology,175.50,-2.34,50000000,0") =
    [{ symbol := some (str "AAPL"), name := some (str "Apple Inc."),
       sector := some (str "Technology"), current_price := some (mkRat 351 2),
       price_change_24h := some (mkRat (-117) 50), volume := some 50000000,
       market_cap := some 0 }] := by decide

lemma mem_insertByConf {a r : RecRow} {l : List RecRow} :
    a ∈ insertByConf r l ↔ a = r ∨ a ∈ l := by
  induction l with
  | nil => simp [insertByConf]
  | cons x xs ih =>
    unfold insertByConf
    split
    · simp
    · simp [ih]; tauto

lemma mem_sortByConfDesc {a : RecRow} {l : List RecRow} :
    a ∈ sortByConfDesc l ↔ a ∈ l := by
  induction l with
  | nil => simp [sortByConfDesc]
  | cons x xs ih => simp [sortByConfDesc, mem_insertByConf, ih]

lemma handleUpload_eq (text : List Char) (stockStore : List StockRow)
    (stockIds : ℕ → List Char) (now : ℤ) (h : parseCSV text ≠ []) :
    handleUpload text stockStore stockIds now =
      (deleteNeqZero StockRow.id stockStore ++
        (parseCSV text).enum.map (fun p => stockOfCSVRow (stockIds p.1) p.2 now),
        true) := by
  unfold handleUpload
  rw [if_neg (by simp [h])]

lemma dashboardGenerate_eq (stocks : List StockRow) (recStore : List RecRow)
    (recIds : ℕ → List Char) (draws : ℕ → ℚ × ℚ × ℚ) (now : ℤ)
    (h : stocks ≠ []) :
    dashboardGenerate stocks recStore recIds draws now =
      (deleteNeqZero RecRow.id recStore ++
        (stocks.take 10).enum.map (fun p =>
          mkDashboardRec (recIds p.1) p.2 (draws p.1).1 (draws p.1).2.1
            (draws p.1).2.2 now), true) := by
  unfold dashboardGenerate
  rw [if_neg (by simp [List.take_eq_nil_iff, h])]

lemma lmServe_ok (parse : List Char → Option (List LMRecRaw))
    (select : List StockRow → List StockRow) (allStocks : List StockRow)
    (recStore : List RecRow) (recIds : ℕ → List Char) (text : List Char)
    (now : ℤ) (h : allStocks ≠ []) :
    lmServe parse select allStocks recStore recIds (.ok text) now =
      ⟨200, true, .noErr, deleteNeqZero RecRow.id recStore ++
        matchBack recIds ((select allStocks).take 10)
          (match (extractJsonSpan text).bind parse with
           | some l => l
           | none => ((select allStocks).take 10).map fallbackRec) now⟩ := by
  unfold lmServe
  rw [if_neg (by simp [h])]

lemma lmServe_err (parse : List Char → Option (List LMRecRaw))
    (select : List StockRow → List StockRow) (allStocks : List StockRow)
    (recStore : List RecRow) (recIds : ℕ → List Char) (st : ℕ)
    (body : List Char) (now : ℤ) (h : allStocks ≠ []) :
    lmServe parse select allStocks recStore recIds (.httpError st body) now =
      if st = 429 then ⟨429, false, .rateLimit, deleteNeqZero RecRow.id recStore⟩
      else if st = 402 then
        ⟨402, false, .payment, deleteNeqZero RecRow.id recStore⟩
      else ⟨500, false, .generic, deleteNeqZero RecRow.id recStore⟩ := by
  unfold lmServe
  rw [if_neg (by simp [h])]

/-- **C6.** Validation rejection leaves state unchanged: zero parsed CSV
rows (e.g. a header-only file, or rows all missing symbol or name) make
the upload report failure without deleting or inserting anything, and a
generation run over an empty equity batch returns a non-success result
(status 400 for the edge function) without touching the recommendation
store. -/
theorem validation_rejection_no_state_change :
    (∀ text stockStore stockIds now, parseCSV text = [] →
      handleUpload text stockStore stockIds now = (stockStore, false))
    ∧ parseCSV (str "symbol,name") = []
    ∧ parseCSV (str "symbol,name" ++ lfChar :: str ",Only Name" ++
        lfChar :: str "ONLYSYM,") = []
    ∧ (∀ parse select recStore recIds up now,
        lmServe parse select [] recStore recIds up now =
          ⟨400, false, ErrKind.emptyBatch, recStore⟩)
    ∧ (∀ recStore recIds draws now,
        dashboardGenerate [] recStore recIds draws now = (recStore, false)) := by
  refine ⟨?_, by decide, by decide, ?_, ?_⟩
  · intro text stockStore stockIds now h
    simp [handleUpload, h]
  · intro parse select recStore recIds up now
    simp [lmServe]
  · intro recStore recIds draws now
    simp [dashboardGenerate]

/-- Witness for C6: a header-only CSV leaves a concrete store intact. -/
theorem validation_rejection_witness :
    handleUpload (str "symbol,name") [stockW] constIds 0 = ([stockW], false) :=
  validation_rejection_no_state_change.1 (str "symbol,name") [stockW] constIds 0
    (by decide)

/-- **C4.** Every inserted recommendation row has
`expires_at = created_at + 7 days` (all three insertion paths), and the
dashboard read path returns only rows whose `expires_at` has not passed
(and whose stock exists, via the inner join). -/
theorem expiry_seven_days_and_read_filter :
    (∀ rid s g now, (mkLMRow rid s g now).expires_at =
        (mkLMRow rid s g now).created_at + 7 * 24 * 60 * 60 * 1000)
    ∧ (∀ rid s tD cD pD now, (mkDashboardRec rid s tD cD pD now).expires_at =
        (mkDashboardRec rid s tD cD pD now).created_at + 7 * 24 * 60 * 60 * 1000)
    ∧ (∀ rid s d1 d2 d3 now, (mkImportRec rid s d1 d2 d3 now).expires_at =
        (mkImportRec rid s d1 d2 d3 now).created_at + 7 * 24 * 60 * 60 * 1000)
    ∧ (∀ now recs stocks r, r ∈ fetchRecs now recs stocks →
        now ≤ r.expires_at ∧ ∃ s ∈ stocks, s.id = r.stock_id)
    ∧ (∀ now recs stocks r, r.expires_at < now →
        r ∉ fetchRecs now recs stocks) := by
  have hmem : ∀ now recs stocks (r : RecRow), r ∈ fetchRecs now recs stocks →
      now ≤ r.expires_at ∧ ∃ s ∈ stocks, s.id = r.stock_id := by
    intro now recs stocks r h
    rw [fetchRecs, mem_sortByConfDesc, List.mem_filter] at h
    obtain ⟨-, h2⟩ := h
    simp only [Bool.and_eq_true, decide_eq_true_eq, List.any_eq_true,
      beq_iff_eq] at h2
    exact ⟨h2.1, by
      obtain ⟨s, hs, he⟩ := h2.2
      exact ⟨s, hs, he⟩⟩
  refine ⟨?_, ?_, ?_, hmem, ?_⟩
  · intro rid s g now
    simp [mkLMRow, sevenDaysMs]
  · intro rid s tD cD pD now
    by_cases h1 : s.price_change_24h > 2
    · simp [mkDashboardRec, h1, sevenDaysMs]
    · by_cases h2 : s.price_change_24h < -2 <;>
        simp [mkDashboardRec, h1, h2, sevenDaysMs]
  · intro rid s d1 d2 d3 now
    simp [mkImportRec, sevenDaysMs]
  · intro now recs stocks r hlt hin
    have := (hmem now recs stocks r hin).1
    omega

/-- Witness for C4: a concrete unexpired recommendation joined to its
stock is returned by the read path. -/
theorem expiry_witness :
    (0 : ℤ) ≤ recW.expires_at ∧ ∃ s ∈ [stockW], s.id = recW.stock_id :=
  expiry_seven_days_and_read_filter.2.2.2.1 0 [recW] [stockW] recW (by decide)

lemma filter_map_big4 (stockIds : ℕ → List Char) (now : ℤ) :
    (sampleNSEData.enum.map (fun p => stockOfNSE (stockIds p.1) p.2 now)).filter
      (fun s => big4.contains s.symbol) =
    (sampleNSEData.enum.filter (fun p => big4.contains p.2.symbol)).map
      (fun p => stockOfNSE (stockIds p.1) p.2 now) := by
  rw [List.filter_map]
  rfl

lemma big4_enum_filter :
    sampleNSEData.enum.filter (fun p => big4.contains p.2.symbol) =
      sampleNSEData.enum.take 4 := by decide

lemma importServe_fst (stockStore : List StockRow) (recStore : List RecRow)
    (stockIds recIds : ℕ → List Char) (draws : ℕ → ℚ × ℚ × ℚ) (now : ℤ) :
    (importServe stockStore recStore stockIds recIds draws now).1 =
      deleteNeqZero StockRow.id stockStore ++
        sampleNSEData.enum.map (fun p => stockOfNSE (stockIds p.1) p.2 now) := by
  unfold importServe
  rw [apply_ite Prod.fst]
  simp

/-- The imported catalog always contains the four named symbols, so the
importer's recommendation step always runs: the final recommendation
store is the cleared store plus one row per matching stock. -/
lemma importServe_snd (stockStore : List StockRow) (recStore : List RecRow)
    (stockIds recIds : ℕ → List Char) (draws : ℕ → ℚ × ℚ × ℚ) (now : ℤ) :
    (importServe stockStore recStore stockIds recIds draws now).2 =
      deleteNeqZero RecRow.id recStore ++
        (((importServe stockStore recStore stockIds recIds draws now).1.filter
            (fun s => big4.contains s.symbol)).enum.map
          (fun p => mkImportRec (recIds p.1) p.2 (draws p.1).1 (draws p.1).2.1
            (draws p.1).2.2 now)) := by
  have hne : ((deleteNeqZero StockRow.id stockStore ++
      sampleNSEData.enum.map (fun p => stockOfNSE (stockIds p.1) p.2 now)).filter
        (fun s => big4.contains s.symbol)).isEmpty = false := by
    rw [List.filter_append, filter_map_big4, big4_enum_filter]
    simp [List.isEmpty_iff, sampleNSEData]
  unfold importServe
  simp only [hne, Bool.false_eq_true, if_false]

/-- **C10.** Every bulk "delete all" uses the filter
`id ≠ '00000000-…-000'`: a row whose id is the zero uuid survives every
bulk replace and every other row is deleted; all five replace sites (CSV
upload, catalog import of stocks, catalog import of recommendations,
edge-function generation, dashboard generation) go through that clear
step. -/
theorem bulk_clear_spares_zero_uuid :
    (∀ (α : Type) (idOf : α → List Char) (rows : List α) (r : α),
      r ∈ deleteNeqZero idOf rows ↔ r ∈ rows ∧ idOf r = zeroUuid)
    ∧ (∀ text stockStore stockIds now, parseCSV text ≠ [] →
        (handleUpload text stockStore stockIds now).1 =
          deleteNeqZero StockRow.id stockStore ++
            (parseCSV text).enum.map (fun p => stockOfCSVRow (stockIds p.1) p.2 now))
    ∧ (∀ stockStore recStore stockIds recIds draws now,
        (importServe stockStore recStore stockIds recIds draws now).1 =
          deleteNeqZero StockRow.id stockStore ++
            sampleNSEData.enum.map (fun p => stockOfNSE (stockIds p.1) p.2 now))
    ∧ (∀ stockStore recStore stockIds recIds draws now, ∃ inserted,
        (importServe stockStore recStore stockIds recIds draws now).2 =
          deleteNeqZero RecRow.id recStore ++ inserted)
    ∧ (∀ parse select allStocks recStore recIds up now, allStocks ≠ [] →
        ∃ inserted,
          (lmServe parse select allStocks recStore recIds up now).recStore =
            deleteNeqZero RecRow.id recStore ++ inserted)
    ∧ (∀ stocks recStore recIds draws now, stocks ≠ [] → ∃ inserted,
        (dashboardGenerate stocks recStore recIds draws now).1 =
          deleteNeqZero RecRow.id recStore ++ inserted) := by
  refine ⟨?_, ?_, ?_, ?_, ?_, ?_⟩
  · intro α idOf rows r
    simp [deleteNeqZero, List.mem_filter]
  · intro text stockStore stockIds now h
    rw [handleUpload_eq text stockStore stockIds now h]
  · intro stockStore recStore stockIds recIds draws now
    exact importServe_fst stockStore recStore stockIds recIds draws now
  · intro stockStore recStore stockIds recIds draws now
    exact ⟨_, importServe_snd stockStore recStore stockIds recIds draws now⟩
  · intro parse select allStocks recStore recIds up now h
    cases up with
    | httpError st body =>
      refine ⟨[], ?_⟩
      rw [lmServe_err parse select allStocks recStore recIds st body now h,
        List.append_nil]
      split_ifs <;> rfl
    | ok text =>
      exact ⟨_, by
        rw [lmServe_ok parse select allStocks recStore recIds text now h]⟩
  · intro stocks recStore recIds draws now h
    exact ⟨_, by rw [dashboardGenerate_eq stocks recStore recIds draws now h]⟩

/-- Witness for C10: the CSV replace equation at a concrete upload, and
the zero-uuid survivor characterisation at a concrete store. -/
theorem bulk_clear_witness :
    (handleUpload csvTextW [stockW] constIds 0).1 =
      deleteNeqZero StockRow.id [stockW] ++
        (parseCSV csvTextW).enum.map (fun p => stockOfCSVRow (constIds p.1) p.2 0) :=
  bulk_clear_spares_zero_uuid.2.1 csvTextW [stockW] constIds 0 (by decide)

lemma jsRound2_nonneg {q : ℚ} (h : 0 ≤ q) : 0 ≤ jsRound2 q := by
  unfold jsRound2
  have h100 : (0 : ℚ) ≤ q * 100 := by nlinarith
  have h2 : (0 : ℚ) ≤ q * 100 + 1 / 2 := by linarith
  apply div_nonneg _ (by norm_num : (0 : ℚ) ≤ 100)
  exact_mod_cast Int.floor_nonneg.mpr h2

/-- **C1 (amended).** The language-model scorer clamps every persisted
confidence into `[0,1]` (raw below 0 to 0, raw above 1 to 1) and every
persisted target price to `≥ 0` (negative raw to 0).  The heuristic
scorer clamps confidence from above only, which still keeps its stored
confidence in `[0,1]` because its raw confidence is at least `0.6`; its
target price is *not* clamped, and is nonnegative exactly when the
equity's stored current price is (see the counterexample for a negative
stored price). -/
theorem clamping_of_persisted_scores :
    (∀ rid s g now,
      (0 ≤ (mkLMRow rid s g now).confidence_score
        ∧ (mkLMRow rid s g now).confidence_score ≤ 1
        ∧ 0 ≤ (mkLMRow rid s g now).target_price)
      ∧ (g.confidence_score < 0 → (mkLMRow rid s g now).confidence_score = 0)
      ∧ (1 < g.confidence_score → (mkLMRow rid s g now).confidence_score = 1)
      ∧ (g.target_price < 0 → (mkLMRow rid s g now).target_price = 0))
    ∧ (∀ rid s tD cD pD now, 0 ≤ cD → 0 ≤ pD →
      (0 ≤ (mkDashboardRec rid s tD cD pD now).confidence_score
        ∧ (mkDashboardRec rid s tD cD pD now).confidence_score ≤ 1
        ∧ (0 ≤ s.current_price →
            0 ≤ (mkDashboardRec rid s tD cD pD now).target_price))) := by
  constructor
  · intro rid s g now
    simp only [mkLMRow]
    refine ⟨⟨?_, ?_, ?_⟩, ?_, ?_, ?_⟩
    · exact le_min (le_max_right _ _) zero_le_one
    · exact min_le_right _ _
    · exact le_max_right _ _
    · intro hc
      rw [max_eq_right hc.le, min_eq_left zero_le_one]
    · intro hc
      rw [max_eq_left (by linarith), min_eq_right hc.le]
    · intro ht
      rw [max_eq_right ht.le]
  · intro rid s tD cD pD now hc hp
    have hck : ∀ a k : ℚ, 0 ≤ a → 0 ≤ k →
        0 ≤ min (a + cD * k) 1 ∧ min (a + cD * k) 1 ≤ 1 := by
      intro a k ha hk
      exact ⟨le_min (by nlinarith) zero_le_one, min_le_right _ _⟩
    have htg : ∀ b k : ℚ, 0 ≤ b → 0 ≤ k → 0 ≤ s.current_price →
        0 ≤ jsRound2 (s.current_price * (b + pD * k)) := by
      intro b k hb hk hs
      exact jsRound2_nonneg (mul_nonneg hs (by nlinarith))
    by_cases h1 : s.price_change_24h > 2
    · simp only [mkDashboardRec, if_pos h1]
      exact ⟨(hck (3 / 4) (1 / 5) (by norm_num) (by norm_num)).1,
        (hck (3 / 4) (1 / 5) (by norm_num) (by norm_num)).2,
        htg (21 / 20) (3 / 20) (by norm_num) (by norm_num)⟩
    · by_cases h2 : s.price_change_24h < -2
      · simp only [mkDashboardRec, if_neg h1, if_pos h2]
        exact ⟨(hck (13 / 20) (1 / 4) (by norm_num) (by norm_num)).1,
          (hck (13 / 20) (1 / 4) (by norm_num) (by norm_num)).2,
          htg (11 / 10) (1 / 5) (by norm_num) (by norm_num)⟩
      · simp only [mkDashboardRec, if_neg h1, if_neg h2]
        exact ⟨(hck (3 / 5) (3 / 10) (by norm_num) (by norm_num)).1,
          (hck (3 / 5) (3 / 10) (by norm_num) (by norm_num)).2,
          htg (51 / 50) (2 / 25) (by norm_num) (by norm_num)⟩

/-- Witness for C1 at a concrete out-of-range language-model entry
(raw confidence 2, raw target −5) and a concrete heuristic run. -/
theorem clamping_witness :
    ((mkLMRow (str "rw1") stockW lmRawW 0).confidence_score = 1
      ∧ (mkLMRow (str "rw1") stockW lmRawW 0).target_price = 0)
    ∧ 0 ≤ (mkDashboardRec (str "rw1") stockW 0 0 0 0).confidence_score
    ∧ 0 ≤ (mkDashboardRec (str "rw1") stockW 0 0 0 0).target_price := by
  have hLM := clamping_of_persisted_scores.1 (str "rw1") stockW lmRawW 0
  have hH := clamping_of_persisted_scores.2 (str "rw1") stockW 0 0 0 0
    (le_refl 0) (le_refl 0)
  exact ⟨⟨hLM.2.2.1 (by norm_num [lmRawW]), hLM.2.2.2 (by norm_num [lmRawW])⟩,
    hH.1, hH.2.2 (by norm_num [stockW])⟩

/-- Counterexample to C1 as stated: with a stored equity whose current
price is negative (CSV numeric parsing is signed and unclamped), the
heuristic path persists a recommendation whose target price is −102,
violating "stored target_price ≥ 0". -/
theorem heuristic_negative_target_cex :
    (mkDashboardRec (str "r-neg") negStock 0 0 0 0).target_price = -102
    ∧ ¬(0 ≤ (mkDashboardRec (str "r-neg") negStock 0 0 0 0).target_price)
    ∧ (dashboardGenerate [negStock] [] (fun _ => str "r-neg") constDraws 0).1 =
        [mkDashboardRec (str "r-neg") negStock 0 0 0 0] := by
  have htp : (mkDashboardRec (str "r-neg") negStock 0 0 0 0).target_price = -102 := by
    norm_num [mkDashboardRec, negStock, jsRound2]
  refine ⟨htp, by rw [htp]; norm_num, ?_⟩
  rw [dashboardGenerate_eq _ _ _ _ _ (by simp)]
  simp [deleteNeqZero, constDraws]

/-- **C2 (amended).** For an equity with `price_change_24h > 2` the
heuristic scorer yields type `buy` exactly when the type draw exceeds
0.3 (an event of probability 0.7 for a uniform draw on `[0,1)`) and
`watch` otherwise; confidence is exactly `0.75` plus one fifth of the
confidence draw, hence in `[0.75, 0.95]`; the stored target price is
`current_price × (1.05 + 0.15·draw)` *rounded to the nearest hundredth*
(`Math.round(x*100)/100`) — the rounding is the amendment forced by the
counterexample. -/
theorem heuristic_uptrend_shape :
    ∀ rid s tD cD pD now, 0 ≤ cD → cD < 1 → s.price_change_24h > 2 →
      (((mkDashboardRec rid s tD cD pD now).rec_type = RecType.buy ↔ tD > 3 / 10)
       ∧ ((mkDashboardRec rid s tD cD pD now).rec_type = RecType.watch ↔
            ¬tD > 3 / 10)
       ∧ (mkDashboardRec rid s tD cD pD now).confidence_score =
            3 / 4 + cD * (1 / 5)
       ∧ 3 / 4 ≤ (mkDashboardRec rid s tD cD pD now).confidence_score
       ∧ (mkDashboardRec rid s tD cD pD now).confidence_score ≤ 19 / 20
       ∧ (mkDashboardRec rid s tD cD pD now).target_price =
            jsRound2 (s.current_price * (21 / 20 + pD * (3 / 20)))) := by
  intro rid s tD cD pD now h0 h1 hpc
  have hconf : min (3 / 4 + cD * (1 / 5)) 1 = 3 / 4 + cD * (1 / 5) :=
    min_eq_left (by nlinarith)
  simp only [mkDashboardRec, if_pos hpc, hconf]
  refine ⟨?_, ?_, by trivial, by nlinarith, by nlinarith, by trivial⟩
  · by_cases ht : tD > 3 / 10 <;> simp [ht]
  · by_cases ht : tD > 3 / 10 <;> simp [ht]

/-- Witness for C2 at a concrete uptrending stock (`price_change_24h = 3`)
with type draw 1 (buy), confidence draw 0 and multiplier draw 0. -/
theorem heuristic_uptrend_witness :
    (((mkDashboardRec (str "rw2") upStock 1 0 0 0).rec_type = RecType.buy ↔
        (1 : ℚ) > 3 / 10)
     ∧ ((mkDashboardRec (str "rw2") upStock 1 0 0 0).rec_type = RecType.watch ↔
          ¬(1 : ℚ) > 3 / 10)
     ∧ (mkDashboardRec (str "rw2") upStock 1 0 0 0).confidence_score =
          3 / 4 + 0 * (1 / 5)
     ∧ 3 / 4 ≤ (mkDashboardRec (str "rw2") upStock 1 0 0 0).confidence_score
     ∧ (mkDashboardRec (str "rw2") upStock 1 0 0 0).confidence_score ≤ 19 / 20
     ∧ (mkDashboardRec (str "rw2") upStock 1 0 0 0).target_price =
          jsRound2 (upStock.current_price * (21 / 20 + 0 * (3 / 20)))) :=
  heuristic_uptrend_shape (str "rw2") upStock 1 0 0 0 (le_refl 0) zero_lt_one
    (by norm_num [upStock])

/-- Counterexample to C2 as stated: for current price 1 and multiplier
draw 0.1 the raw product is 1.065 but the stored target price is 1.07 —
the code rounds to two decimals, so the stored value is not equal to
`current_price × (1.05 + 0.15·draw)`. -/
theorem heuristic_target_rounded_cex :
    (mkDashboardRec (str "r-up") upStock (1 / 2) 0 (1 / 10) 0).target_price =
        107 / 100
    ∧ upStock.current_price * (21 / 20 + (1 / 10) * (3 / 20)) = 213 / 200
    ∧ (107 : ℚ) / 100 ≠ 213 / 200 := by
  refine ⟨?_, by norm_num [upStock], by norm_num⟩
  norm_num [mkDashboardRec, upStock, jsRound2]

/-- Counterexample to C5 as stated: the importer's recommendation
generator is not the §4.3 heuristic scorer.  On the imported RELIANCE
row (`price_change_24h = 1.25`, the "otherwise" band) the §4.3 scorer
can only produce `hold` or `watch`, yet the importer's generator
produces `buy` for any coin-flip draw above one half; its confidence and
target distributions differ as well. -/
theorem import_rec_not_heuristic_cex :
    (mkImportRec (str "r-rel") relianceRow (3 / 5) 0 0 0).rec_type = RecType.buy
    ∧ (∀ rid tD cD pD now,
        (mkDashboardRec rid relianceRow tD cD pD now).rec_type ≠ RecType.buy) := by
  constructor
  · norm_num [mkImportRec]
  · intro rid tD cD pD now
    have h1 : ¬(relianceRow.price_change_24h > 2) := by
      norm_num [relianceRow, Rat.mkRat_eq_div]
    have h2 : ¬(relianceRow.price_change_24h < -2) := by
      norm_num [relianceRow, Rat.mkRat_eq_div]
    simp only [mkDashboardRec, if_neg h1, if_neg h2]
    split <;> simp

/-- **C5 (amended).** The Fixed-Catalog Importer, with no input, replaces
the Equity Store with the fixed catalog of exactly 15 fully-populated
instruments, then replaces the Recommendation Store with one row for
each of exactly the 4 symbols RELIANCE, TCS, INFY, HDFCBANK — but those
rows are produced by a simpler coin-flip generator (`buy` iff the draw
exceeds 0.5, else `watch`; confidence `0.7 + 0.3·U`; target
`2000 + 500·U`, independent of the equity's prices), not by the §4.3
heuristic scorer. -/
theorem import_catalog_and_recs :
    sampleNSEData.length = 15
    ∧ (∀ n ∈ sampleNSEData, n.sector.isSome ∧ n.current_price.isSome
        ∧ n.price_change_24h.isSome ∧ n.volume.isSome ∧ n.market_cap.isSome)
    ∧ (∀ stockStore recStore stockIds recIds draws now,
        (∀ r ∈ stockStore, r.id ≠ zeroUuid) →
        ((importServe stockStore recStore stockIds recIds draws now).1 =
            sampleNSEData.enum.map (fun p => stockOfNSE (stockIds p.1) p.2 now)
        ∧ ((importServe stockStore recStore stockIds recIds draws now).1.filter
              (fun s => big4.contains s.symbol)).map StockRow.symbol = big4
        ∧ ((importServe stockStore recStore stockIds recIds draws now).1.filter
              (fun s => big4.contains s.symbol)).length = 4
        ∧ (importServe stockStore recStore stockIds recIds draws now).2 =
            deleteNeqZero RecRow.id recStore ++
              (((importServe stockStore recStore stockIds recIds draws now).1.filter
                  (fun s => big4.contains s.symbol)).enum.map
                (fun p => mkImportRec (recIds p.1) p.2 (draws p.1).1
                  (draws p.1).2.1 (draws p.1).2.2 now))))
    ∧ (∀ rid s d1 d2 d3 now,
        0 ≤ d1 → d1 < 1 → 0 ≤ d2 → d2 < 1 → 0 ≤ d3 → d3 < 1 →
        (((mkImportRec rid s d1 d2 d3 now).rec_type = RecType.buy ↔ d1 > 1 / 2)
        ∧ (mkImportRec rid s d1 d2 d3 now).confidence_score =
            d2 * (3 / 10) + 7 / 10
        ∧ 7 / 10 ≤ (mkImportRec rid s d1 d2 d3 now).confidence_score
        ∧ (mkImportRec rid s d1 d2 d3 now).confidence_score < 1
        ∧ (mkImportRec rid s d1 d2 d3 now).target_price = d3 * 500 + 2000
        ∧ 2000 ≤ (mkImportRec rid s d1 d2 d3 now).target_price
        ∧ (mkImportRec rid s d1 d2 d3 now).target_price < 2500)) := by
  refine ⟨by decide, by decide, ?_, ?_⟩
  · intro stockStore recStore stockIds recIds draws now h
    have hclear : deleteNeqZero StockRow.id stockStore = [] := by
      rw [deleteNeqZero, List.filter_eq_nil_iff]
      intro r hr
      simpa using h r hr
    have hfst := importServe_fst stockStore recStore stockIds recIds draws now
    rw [hclear, List.nil_append] at hfst
    refine ⟨hfst, ?_, ?_, ?_⟩
    · rw [hfst, filter_map_big4, big4_enum_filter, List.map_map]
      rfl
    · rw [hfst, filter_map_big4, big4_enum_filter]
      simp only [List.length_map]
      decide
    · exact importServe_snd stockStore recStore stockIds recIds draws now
  · intro rid s d1 d2 d3 now h1a h1b h2a h2b h3a h3b
    simp only [mkImportRec]
    refine ⟨?_, by trivial, by nlinarith, by nlinarith, by trivial,
      by nlinarith, by nlinarith⟩
    by_cases hd : d1 > 1 / 2 <;> simp [hd]

/-- Witness for C5: the import over empty stores yields exactly the
catalog, and the coin-flip generator's shape at draw 0. -/
theorem import_catalog_witness :
    (importServe [] [] constIds constIds constDraws 0).1 =
      sampleNSEData.enum.map (fun p => stockOfNSE (constIds p.1) p.2 0)
    ∧ ((mkImportRec (str "rw5") stockW 0 0 0 0).rec_type = RecType.buy ↔
        (0 : ℚ) > 1 / 2) :=
  ⟨(import_catalog_and_recs.2.2.1 [] [] constIds constIds constDraws 0
      (by simp)).1,
   (import_catalog_and_recs.2.2.2 (str "rw5") stockW 0 0 0 0 (le_refl 0)
      zero_lt_one (le_refl 0) zero_lt_one (le_refl 0) zero_lt_one).1⟩

lemma firstIdxFrom_append_cons (c : Char) (a t : List Char) (ha : c ∉ a) :
    firstIdxFrom c (a ++ c :: t) = some a.length := by
  induction a with
  | nil => simp [firstIdxFrom]
  | cons x xs ih =>
    have hx : (x == c) = false := by
      simp only [beq_eq_false_iff_ne]
      intro h
      exact ha (by simp [h])
    have hxs : c ∉ xs := fun h => ha (List.mem_cons_of_mem _ h)
    simp [firstIdxFrom, hx, ih hxs]

lemma firstIdxFrom_eq_none (c : Char) (s : List Char) (h : c ∉ s) :
    firstIdxFrom c s = none := by
  induction s with
  | nil => rfl
  | cons x xs ih =>
    have hx : (x == c) = false := by
      simp only [beq_eq_false_iff_ne]
      intro hh
      exact h (by simp [hh])
    simp [firstIdxFrom, hx, ih (fun hm => h (List.mem_cons_of_mem _ hm))]

lemma extractJsonSpan_of_split (a b c : List Char) (ha : lBracketChar ∉ a)
    (hc : rBracketChar ∉ c) :
    extractJsonSpan (a ++ lBracketChar :: b ++ rBracketChar :: c) =
      some (lBracketChar :: b ++ [rBracketChar]) := by
  have hflat : a ++ lBracketChar :: b ++ rBracketChar :: c =
      a ++ lBracketChar :: (b ++ rBracketChar :: c) := by simp
  rw [hflat]
  have hfirst : firstIdxFrom lBracketChar
      (a ++ lBracketChar :: (b ++ rBracketChar :: c)) = some a.length :=
    firstIdxFrom_append_cons _ a _ ha
  have hsrev : (a ++ lBracketChar :: (b ++ rBracketChar :: c)).reverse =
      c.reverse ++ rBracketChar :: (a ++ lBracketChar :: b).reverse := by
    have hshape : a ++ lBracketChar :: (b ++ rBracketChar :: c) =
        (a ++ lBracketChar :: b) ++ rBracketChar :: c := by simp
    rw [hshape, List.reverse_append]
    simp
  have hrev : firstIdxFrom rBracketChar
      (a ++ lBracketChar :: (b ++ rBracketChar :: c)).reverse =
        some c.reverse.length := by
    rw [hsrev]
    exact firstIdxFrom_append_cons _ _ _ (by simpa using hc)
  unfold extractJsonSpan
  rw [hfirst, hrev]
  simp only [Option.map_some']
  rw [List.length_reverse]
  have hlen : (a ++ lBracketChar :: (b ++ rBracketChar :: c)).length =
      a.length + b.length + c.length + 2 := by
    simp
    omega
  rw [hlen]
  have hj : a.length + b.length + c.length + 2 - 1 - c.length =
      a.length + b.length + 1 := by omega
  rw [hj, if_pos (by omega)]
  have hdrop : (a ++ lBracketChar :: (b ++ rBracketChar :: c)).drop a.length =
      lBracketChar :: (b ++ rBracketChar :: c) := List.drop_left a _
  rw [hdrop]
  have harith : a.length + b.length + 1 - a.length + 1 = b.length + 1 + 1 := by
    omega
  rw [harith, List.take_succ_cons]
  have htake : (b ++ rBracketChar :: c).take (b.length + 1) =
      b ++ [rBracketChar] := by
    have h := @List.take_append Char b (rBracketChar :: c) 1
    simpa using h
  rw [htake]
  simp

lemma extractJsonSpan_none (s : List Char) (h : rBracketChar ∉ s) :
    extractJsonSpan s = none := by
  have hnone : firstIdxFrom rBracketChar s.reverse = none :=
    firstIdxFrom_eq_none _ _ (by simpa using h)
  unfold extractJsonSpan
  rw [hnone]
  cases firstIdxFrom lBracketChar s <;> rfl

lemma matchBack_mem (recIds : ℕ → List Char) (stocks : List StockRow)
    (recs : List LMRecRaw) (now : ℤ) (r : RecRow)
    (h : r ∈ matchBack recIds stocks recs now) :
    ∃ i s g, g ∈ recs ∧ s ∈ stocks ∧ s.symbol = g.symbol
      ∧ r = mkLMRow (recIds i) s g now := by
  unfold matchBack at h
  rw [List.mem_map] at h
  obtain ⟨⟨i, s, g⟩, hmem, hr⟩ := h
  rw [List.enum_eq_zip_range] at hmem
  have hsg := (List.of_mem_zip hmem).2
  rw [List.mem_filterMap] at hsg
  obtain ⟨g', hg', heq⟩ := hsg
  rw [Option.map_eq_some'] at heq
  obtain ⟨s', hfind, hpair⟩ := heq
  have hs' : s' = s := congrArg Prod.fst hpair
  have hg'2 : g' = g := congrArg Prod.snd hpair
  subst hs'
  subst hg'2
  refine ⟨i, s', g', hg', List.mem_of_find?_eq_some hfind, ?_, hr.symm⟩
  have := List.find?_some hfind
  simpa using this

/-- **C3.** The language-model scorer's response handling: the response
text is scanned for the span from the first `[` to the last `]` (no
bracketed span means no match); entries are matched back to the batch by
exact symbol equality, with unmatched entries silently dropped; a failed
upstream call yields a non-success status with the rate-limit (429) and
payment-required (402) conditions surfaced distinctly from each other
and from the generic 500; and when no JSON span can be located or the
parse fails, the engine inserts the heuristic fallback over the same
batch instead of aborting. -/
theorem lm_pipeline_error_handling :
    (∀ a b c, lBracketChar ∉ a → rBracketChar ∉ c →
      extractJsonSpan (a ++ lBracketChar :: b ++ rBracketChar :: c) =
        some (lBracketChar :: b ++ [rBracketChar]))
    ∧ (∀ s, rBracketChar ∉ s → extractJsonSpan s = none)
    ∧ (∀ parse select allStocks recStore recIds body now,
        allStocks ≠ [] →
        lmServe parse select allStocks recStore recIds (.httpError 429 body) now =
          ⟨429, false, .rateLimit, deleteNeqZero RecRow.id recStore⟩)
    ∧ (∀ parse select allStocks recStore recIds body now,
        allStocks ≠ [] →
        lmServe parse select allStocks recStore recIds (.httpError 402 body) now =
          ⟨402, false, .payment, deleteNeqZero RecRow.id recStore⟩)
    ∧ (∀ parse select allStocks recStore recIds st body now,
        allStocks ≠ [] → st ≠ 429 → st ≠ 402 →
        lmServe parse select allStocks recStore recIds (.httpError st body) now =
          ⟨500, false, .generic, deleteNeqZero RecRow.id recStore⟩)
    ∧ ErrKind.rateLimit ≠ ErrKind.payment
    ∧ (∀ parse select allStocks recStore recIds text now,
        allStocks ≠ [] → (extractJsonSpan text).bind parse = none →
        lmServe parse select allStocks recStore recIds (.ok text) now =
          ⟨200, true, .noErr, deleteNeqZero RecRow.id recStore ++
            matchBack recIds ((select allStocks).take 10)
              (((select allStocks).take 10).map fallbackRec) now⟩)
    ∧ (∀ recIds stocks g now,
        stocks.find? (fun s => s.symbol == g.symbol) = none →
        matchBack recIds stocks [g] now = [])
    ∧ (∀ recIds stocks g s now,
        stocks.find? (fun s2 => s2.symbol == g.symbol) = some s →
        matchBack recIds stocks [g] now = [mkLMRow (recIds 0) s g now]
          ∧ s ∈ stocks ∧ s.symbol = g.symbol)
    ∧ (∀ recIds stocks recs now r, r ∈ matchBack recIds stocks recs now →
        ∃ i s g, g ∈ recs ∧ s ∈ stocks ∧ s.symbol = g.symbol
          ∧ r = mkLMRow (recIds i) s g now) := by
  refine ⟨extractJsonSpan_of_split, extractJsonSpan_none, ?_, ?_, ?_,
    by simp, ?_, ?_, ?_, matchBack_mem⟩
  · intro parse select allStocks recStore recIds body now h
    rw [lmServe_err parse select allStocks recStore recIds 429 body now h]
    simp
  · intro parse select allStocks recStore recIds body now h
    rw [lmServe_err parse select allStocks recStore recIds 402 body now h]
    simp
  · intro parse select allStocks recStore recIds st body now h h429 h402
    rw [lmServe_err parse select allStocks recStore recIds st body now h,
      if_neg h429, if_neg h402]
  · intro parse select allStocks recStore recIds text now h hparse
    rw [lmServe_ok parse select allStocks recStore recIds text now h, hparse]
  · intro recIds stocks g now h
    simp [matchBack, h]
  · intro recIds stocks g s now h
    refine ⟨by simp [matchBack, h, List.enum], List.mem_of_find?_eq_some h, ?_⟩
    have := List.find?_some h
    simpa using this

/-- Witness for C3: the rate-limit response at a concrete store, a
concrete extraction, and a concrete unmatched symbol being dropped. -/
theorem lm_pipeline_witness :
    lmServe noParse idSelect [stockW] [recW] constIds
        (.httpError 429 (str "limit")) 0 =
      ⟨429, false, .rateLimit, deleteNeqZero RecRow.id [recW]⟩
    ∧ extractJsonSpan (str "x" ++ lBracketChar :: str "1,2" ++
        rBracketChar :: str "y") =
      some (lBracketChar :: str "1,2" ++ [rBracketChar])
    ∧ matchBack constIds [stockW] [lmRawUnmatched] 0 = [] :=
  ⟨lm_pipeline_error_handling.2.2.1 noParse idSelect [stockW] [recW] constIds
      (str "limit") 0 (List.cons_ne_nil _ _),
   lm_pipeline_error_handling.1 (str "x") (str "1,2") (str "y")
      (by decide) (by decide),
   lm_pipeline_error_handling.2.2.2.2.2.2.2.1 constIds [stockW] lmRawUnmatched 0
      (by decide)⟩

lemma trim_eq_nil_of_all {s : List Char} (h : ∀ c ∈ s, isJsSpace c = true) :
    trim s = [] := by
  unfold trim
  rw [List.dropWhile_eq_nil_iff.mpr h]
  rfl

lemma all_space_of_trim_eq_nil {s : List Char} (h : trim s = []) :
    ∀ c ∈ s, isJsSpace c = true := by
  unfold trim at h
  rw [List.reverse_eq_nil_iff, List.dropWhile_eq_nil_iff] at h
  intro c hc
  by_cases hcs : c ∈ s.dropWhile isJsSpace
  · exact h c (List.mem_reverse.mpr hcs)
  · have hsplit := @List.takeWhile_append_dropWhile Char isJsSpace s
    rw [← hsplit] at hc
    rcases List.mem_append.mp hc with h1 | h2
    · exact List.mem_takeWhile_imp h1
    · exact absurd h2 hcs

lemma trim_stripQuotes_eq_nil {v : List Char} (h : trim v = []) :
    trim (stripQuotes v) = [] := by
  apply trim_eq_nil_of_all
  intro c hc
  exact all_space_of_trim_eq_nil h c (List.mem_filter.mp hc).1

lemma truthyStr_eq_true {o : Option (List Char)} (h : truthyStr o = true) :
    ∃ s, o = some s ∧ s ≠ [] := by
  cases o with
  | none => simp [truthyStr] at h
  | some s =>
    refine ⟨s, rfl, ?_⟩
    cases s with
    | nil => simp [truthyStr] at h
    | cons c t => simp

lemma applyHeader_symbol (row : CSVRow) (h v : List Char) :
    (applyHeader row h v).symbol = some (jsToUpper v)
      ∨ (applyHeader row h v).symbol = row.symbol := by
  unfold applyHeader
  dsimp only
  split_ifs
  all_goals first
    | (left; rfl)
    | (right; rfl)
    | (right; split <;> rfl)

lemma buildRowStep_symbol (values : List (List Char)) (row : CSVRow)
    (p : ℕ × List Char) :
    (buildRowStep values row p).symbol = row.symbol
      ∨ ∃ v, v ≠ [] ∧ (buildRowStep values row p).symbol = some (jsToUpper v)
        ∧ ∃ raw ∈ values, v = trim (stripQuotes raw) := by
  unfold buildRowStep
  cases hval : values[p.1]? with
  | none => left; rfl
  | some raw =>
    by_cases hemp : (trim (stripQuotes raw)).isEmpty
    · left
      simp only [hemp, if_true]
    · simp only [hemp, Bool.false_eq_true, if_false]
      rcases applyHeader_symbol row p.2 (trim (stripQuotes raw)) with h | h
      · right
        refine ⟨trim (stripQuotes raw), ?_, h, raw, List.getElem?_mem hval, rfl⟩
        intro hnil
        rw [hnil] at hemp
        exact hemp rfl
      · left; exact h

lemma buildRow_symbol_cases (headers values : List (List Char)) :
    (buildRow headers values).symbol = none
      ∨ ∃ v, v ≠ [] ∧ (buildRow headers values).symbol = some (jsToUpper v)
        ∧ ∃ raw ∈ values, v = trim (stripQuotes raw) := by
  unfold buildRow
  generalize headers.enum = hs
  suffices h : ∀ (hs : List (ℕ × List Char)) (row : CSVRow),
      (row.symbol = none
        ∨ ∃ v, v ≠ [] ∧ row.symbol = some (jsToUpper v)
          ∧ ∃ raw ∈ values, v = trim (stripQuotes raw)) →
      ((hs.foldl (buildRowStep values) row).symbol = none
        ∨ ∃ v, v ≠ [] ∧ (hs.foldl (buildRowStep values) row).symbol =
            some (jsToUpper v) ∧ ∃ raw ∈ values, v = trim (stripQuotes raw)) by
    exact h hs {} (Or.inl rfl)
  intro hs
  induction hs with
  | nil => intro row h; exact h
  | cons p t ih =>
    intro row h
    rw [List.foldl_cons]
    apply ih
    rcases buildRowStep_symbol values row p with h1 | h1
    · rw [h1]; exact h
    · right; exact h1

lemma rowOfLine_some {headers : List (List Char)} {line : List Char} {row : CSVRow}
    (h : rowOfLine headers line = some row) :
    row = buildRow headers (parseCSVLine line)
    ∧ truthyStr row.symbol = true ∧ truthyStr row.name = true := by
  unfold rowOfLine at h
  dsimp only at h
  split_ifs at h with h1 h2
  rw [Option.some.injEq] at h
  subst h
  exact ⟨rfl, ((Bool.and_eq_true _ _).mp h2).1, ((Bool.and_eq_true _ _).mp h2).2⟩

lemma rowOfLine_eq_some {headers : List (List Char)} {line : List Char}
    (hsym : truthyStr (buildRow headers (parseCSVLine line)).symbol = true)
    (hname : truthyStr (buildRow headers (parseCSVLine line)).name = true) :
    rowOfLine headers line = some (buildRow headers (parseCSVLine line)) := by
  obtain ⟨s, hs, hsne⟩ := truthyStr_eq_true hsym
  rcases buildRow_symbol_cases headers (parseCSVLine line) with hc | hc
  · rw [hc] at hs; exact absurd hs (by simp)
  obtain ⟨v, hvne, hvsym, raw, hrawmem, hveq⟩ := hc
  have hrawne : (trim raw).isEmpty = false := by
    cases hre : (trim raw).isEmpty
    · rfl
    · have : trim (stripQuotes raw) = [] :=
        trim_stripQuotes_eq_nil (by simpa using hre)
      rw [← hveq] at this
      exact absurd this hvne
  have hskip : ((parseCSVLine line).isEmpty ||
      (parseCSVLine line).all (fun v => (trim v).isEmpty)) = false := by
    have hne : parseCSVLine line ≠ [] := List.ne_nil_of_mem hrawmem
    have hall : (parseCSVLine line).all (fun v => (trim v).isEmpty) = false := by
      cases hA : (parseCSVLine line).all (fun v => (trim v).isEmpty)
      · rfl
      · have h2 : (trim raw).isEmpty = true := by
          simpa using (List.all_eq_true.mp hA) raw hrawmem
        rw [hrawne] at h2
        exact absurd h2 (by simp)
    simp [hall, hne]
  unfold rowOfLine
  dsimp only
  rw [hskip]
  simp only [Bool.false_eq_true, if_false]
  rw [hsym, hname]
  rfl

/-- **C8.** A data row survives parsing iff both its symbol and name
resolved to non-empty values; the captured symbol is the uppercased raw
value; and header identity is fuzzy (lower-cased, with spaces,
underscores and hyphens stripped), so a `Ticker` column with value `tcs`
yields symbol `"TCS"`. -/
theorem csv_row_kept_iff_fields :
    (∀ text row, row ∈ parseCSV text →
      (∃ s, row.symbol = some s ∧ s ≠ [] ∧ ∃ v, s = jsToUpper v)
      ∧ ∃ n, row.name = some n ∧ n ≠ [])
    ∧ (∀ text line, line ∈ dataRowsOf text →
        truthyStr (buildRow (headersOf text) (parseCSVLine line)).symbol = true →
        truthyStr (buildRow (headersOf text) (parseCSVLine line)).name = true →
        buildRow (headersOf text) (parseCSVLine line) ∈ parseCSV text)
    ∧ parseCSV tickerText =
        [{ symbol := some (str "TCS"), name := some (str "Tata") }] := by
  refine ⟨?_, ?_, by decide⟩
  · intro text row hmem
    rw [parseCSV, List.mem_filterMap] at hmem
    obtain ⟨line, hline, hrow⟩ := hmem
    obtain ⟨hrow_eq, hsym, hname⟩ := rowOfLine_some hrow
    constructor
    · obtain ⟨s, hs, hsne⟩ := truthyStr_eq_true hsym
      refine ⟨s, hs, hsne, ?_⟩
      rcases buildRow_symbol_cases (headersOf text) (parseCSVLine line) with hc | hc
      · rw [← hrow_eq] at hc
        rw [hc] at hs
        exact absurd hs (by simp)
      · obtain ⟨v, _, hvsym, _⟩ := hc
        rw [← hrow_eq] at hvsym
        rw [hvsym] at hs
        exact ⟨v, (Option.some.injEq .. ▸ hs).symm⟩
    · exact truthyStr_eq_true hname
  · intro text line hline hsym hname
    rw [parseCSV, List.mem_filterMap]
    exact ⟨line, hline, rowOfLine_eq_some hsym hname⟩

/-- Witness for C8: the `Ticker`/`tcs` data row is kept. -/
theorem csv_row_kept_witness :
    buildRow (headersOf tickerText) (parseCSVLine (str "tcs,Tata")) ∈
      parseCSV tickerText :=
  csv_row_kept_iff_fields.2.1 tickerText (str "tcs,Tata") (by decide) (by decide)
    (by decide)

/-- **C9 (amended).** Numeric CSV fields strip `,` and `$` before
parsing; `%` is additionally stripped only for `price_change_24h` (for
the other numeric fields a trailing `%` is still harmless because
parsing stops at the first invalid character, but a leading `%` makes
the parse fail); a value that fails to parse leaves the field absent —
the previous value is kept, the row is not rejected. -/
theorem numeric_field_stripping :
    (∀ row v, (applyHeader row (str "price") v).current_price =
        (jsParseFloat (stripCommaDollar v)).elim row.current_price some)
    ∧ (∀ row v, (applyHeader row (str "change") v).price_change_24h =
        (jsParseFloat (stripPctCommaDollar v)).elim row.price_change_24h some)
    ∧ (∀ row v, (applyHeader row (str "volume") v).volume =
        (jsParseInt (stripCommaDollar v)).elim row.volume some)
    ∧ (∀ row v, (applyHeader row (str "market_cap") v).market_cap =
        (jsParseInt (stripCommaDollar v)).elim row.market_cap some)
    ∧ parseCSV (str "price,symbol,name" ++ lfChar :: str "abc,AAPL,Apple") =
        [{ symbol := some (str "AAPL"), name := some (str "Apple") }]
    ∧ jsParseFloat (stripCommaDollar (str "$1,234.56")) = some (mkRat 123456 100)
    ∧ jsParseFloat (stripPctCommaDollar (str "-2.34%")) = some (mkRat (-234) 100)
    ∧ jsParseFloat (stripCommaDollar (str "175.50%")) = some (mkRat 17550 100) := by
  refine ⟨?_, ?_, ?_, ?_, by decide, by decide, by decide, by decide⟩
  · intro row v
    simp only [applyHeader]
    rw [if_neg (by decide), if_neg (by decide), if_neg (by decide),
      if_pos (by decide)]
    cases jsParseFloat (stripCommaDollar v) <;> rfl
  · intro row v
    simp only [applyHeader]
    rw [if_neg (by decide), if_neg (by decide), if_neg (by decide),
      if_neg (by decide), if_pos (by decide)]
    cases jsParseFloat (stripPctCommaDollar v) <;> rfl
  · intro row v
    simp only [applyHeader]
    rw [if_neg (by decide), if_neg (by decide), if_neg (by decide),
      if_neg (by decide), if_neg (by decide), if_pos (by decide)]
    cases jsParseInt (stripCommaDollar v) <;> rfl
  · intro row v
    simp only [applyHeader]
    rw [if_neg (by decide), if_neg (by decide), if_neg (by decide),
      if_neg (by decide), if_neg (by decide), if_neg (by decide),
      if_pos (by decide)]
    cases jsParseInt (stripCommaDollar v) <;> rfl

/-- Counterexample to C9 as stated: the `current_price` cleaner is
`/[,$]/g` — `%` is *not* stripped — so the value `%5` fails to parse and
the field stays absent, whereas stripping `%` (as the claim says) would
parse it as 5. -/
theorem pct_not_stripped_cex :
    parseCSV (str "price,symbol,name" ++ lfChar :: str "%5,A,Apple") =
      [{ symbol := some (str "A"), name := some (str "Apple") }]
    ∧ jsParseFloat (stripPctCommaDollar (str "%5")) = some (mkRat 5 1)
    ∧ (applyHeader {} (str "price") (str "%5")).current_price = none
    ∧ (applyHeader {} (str "price") (str "%5")).current_price ≠
        (jsParseFloat (stripPctCommaDollar (str "%5"))).elim none some := by
  exact ⟨by decide, by decide, by decide, by decide⟩

end DipBuyer
